import Mathlib

/-!
Verification of the deterministic core of the `contract-scout` repository:
the keyword category classifier (`src/dme_analyzer.py`), the email
grouping/filtering and rendering pipeline (`src/email_templates.py`) and the
CSV logger (`src/contract_scout.py`), shallowly embedded in Lean.

Strings are modelled as `List Char` at the scanning level (Python string
slicing and indexing is by code point, which coincides with `String.toList`).
All inputs exercised by the claims are ASCII, so `Char.toLower`,
`Char.isAlphanum` and `Char.isWhitespace` agree with Python's `str.lower`,
the regex class `\w` and `str.strip` on every character that can occur.
-/

namespace ContractScout

/-! ### Word-boundary keyword matching (`re.search(r"\b" + re.escape(kw) + r"\b", text)`) -/

/-- Python regex word character `\w` (ASCII fragment): alphanumeric or underscore. -/
def isWordChar (c : Char) : Bool := c.isAlphanum || c == '_'

/-- Word-ness of an optional character; `none` (start/end of string) counts as non-word. -/
def wOpt : Option Char → Bool
  | none => false
  | some c => isWordChar c

/-- Python regex `\b`: a boundary between a word and a non-word position. -/
def bdry (p n : Option Char) : Bool := wOpt p != wOpt n

/-- Does `\b kw \b` match at the current position, where `prev` is the character
just before the position (`none` at the start of the string)?  Since every
keyword in the tables below is nonempty, the characters adjacent to the two
`\b` anchors on the text side are exactly `kw.head?` and `kw.getLast?`. -/
def matchesAt (kw : List Char) (prev : Option Char) (text : List Char) : Bool :=
  kw.isPrefixOf text && bdry prev kw.head? && bdry kw.getLast? ((text.drop kw.length).head?)

/-- `re.search` scanning: try every position left to right; `prev` is the character
before the current position. -/
def searchB (kw : List Char) : Option Char → List Char → Bool
  | prev, [] => matchesAt kw prev []
  | prev, c :: rest => matchesAt kw prev (c :: rest) || searchB kw (some c) rest

/-- `re.search(r"\b kw \b", text) is not None`. -/
def wordMatch (kw text : List Char) : Bool := searchB kw none text

/-- Python `str.strip()` (whitespace only, as in the keyword tables). -/
def pyStrip (s : List Char) : List Char :=
  ((s.dropWhile Char.isWhitespace).reverse.dropWhile Char.isWhitespace).reverse

/-- Python `str.lower()` applied to a string, viewed as a character list. -/
def lowerL (s : String) : List Char := s.toList.map Char.toLower

/-! ### Keyword tables (`_CATEGORY_KEYWORDS`, `_CONSULTING_CATEGORY_KEYWORDS`) -/

def CATEGORY_KEYWORDS : List (String × List String) := [
  ("Wheelchairs - Power",
    ["power wheelchair", "electric wheelchair", "motorized wheelchair",
     "jazzy", "quantum", "permobil", "power chair", "powerchair"]),
  ("Wheelchairs - Manual",
    ["manual wheelchair", "transport chair", "standard wheelchair",
     "lightweight wheelchair", "folding wheelchair"]),
  ("Mobility Scooters",
    ["mobility scooter", "go-go", "travel scooter", "power scooter",
     "electric scooter", "scooter"]),
  ("Hospital Beds",
    ["hospital bed", "medical bed", "adjustable bed", "bariatric bed",
     "patient bed", "exam table", "electric bed", "semi-electric bed"]),
  ("Patient Lifts",
    ["patient lift", "hoyer", "ceiling lift", "transfer lift",
     "lifting equipment", "patient transfer", "sit-to-stand", "floor lift"]),
  ("Walkers and Mobility Aids",
    ["walker", "rollator", "walking aid", "gait trainer",
     "forearm crutch", "crutch", " cane"]),
  ("Bathroom Safety",
    ["grab bar", "shower chair", "shower bench", "toilet safety",
     "raised toilet seat", "commode", "bath seat", "bath safety",
     "tub transfer", "bathroom safety"])]

def CONSULTING_CATEGORY_KEYWORDS : List (String × List String) := [
  ("Process Improvement",
    ["process improvement", "process optimization", "workflow improvement",
     "lean", "six sigma", "continuous improvement", "kaizen",
     "operational excellence", "efficiency improvement", "business process"]),
  ("Agile & Project Management",
    ["agile", "scrum", "agile transformation", "agile coaching",
     "project management", "program management", "pmo",
     "change management", "organizational change", "sprint"]),
  ("Automation & Digital",
    ["automation", "process automation", "workflow automation",
     "low-code", "no-code", "digital transformation",
     "rpa", "robotic process automation", "system integration"]),
  ("Training & Development",
    ["training", "coaching", "facilitation", "workshop",
     "agile training", "scrum training", "leadership development",
     "organizational development", "capability development"]),
  ("Management Consulting",
    ["strategic planning", "management consulting", "business consulting",
     "performance improvement", "advisory", "assessment", "recommendation",
     "strategic", "consulting services"])]

/-- Does any keyword of the list hit the text (the inner `for kw in keywords`
loop with its `break`: one hit per category suffices)? -/
def kwHits (kws : List String) (text : List Char) : Bool :=
  kws.any fun kw => wordMatch (pyStrip kw.toList) text

/-- The `_scan` helper without the wheelchair tie-break: the categories whose
keyword list hits the text, in table (priority) order. -/
def scanTable (table : List (String × List String)) (text : List Char) : List String :=
  table.filterMap fun p => if kwHits p.2 text then some p.1 else none

/-- `_detect_category._scan`, including the power-beats-manual tie-break
(`found.remove("Wheelchairs - Manual")` removes the single occurrence). -/
def scanDME (text : List Char) : List String :=
  let found := scanTable CATEGORY_KEYWORDS text
  if "Wheelchairs - Manual" ∈ found ∧ "Wheelchairs - Power" ∈ found then
    found.erase "Wheelchairs - Manual"
  else found

/-- `_detect_consulting_category._scan` (no tie-break). -/
def scanConsulting (text : List Char) : List String :=
  scanTable CONSULTING_CATEGORY_KEYWORDS text

/-- The matched-set computed by `_detect_category`: title scan, falling back to
the scan of `title_lower + " " + description.lower()` when the title yields
nothing. -/
def dme_matched (title description : String) : List String :=
  let tl := lowerL title
  let matched := scanDME tl
  if matched = [] then scanDME (tl ++ (' ' :: lowerL description)) else matched

/-- `DMEAnalyzer._detect_category`. -/
def detect_category (title description : String) : String :=
  let matched := dme_matched title description
  if 3 ≤ matched.length then "Mixed DME"
  else
    match matched with
    | c :: _ => c
    | [] => "Other Medical Equipment"

/-- The matched-set computed by `_detect_consulting_category`. -/
def consulting_matched (title description : String) : List String :=
  let tl := lowerL title
  let matched := scanConsulting tl
  if matched = [] then scanConsulting (tl ++ (' ' :: lowerL description)) else matched

/-- `DMEAnalyzer._detect_consulting_category`. -/
def detect_consulting_category (title description : String) : String :=
  let matched := consulting_matched title description
  if 3 ≤ matched.length then "Management Consulting"
  else
    match matched with
    | c :: _ => c
    | [] => "Other Consulting"

/-! ### Email pipeline data model (`src/email_templates.py`)

A `ScoredOpp` models the dict for one scored opportunity.  `Option` fields
model possibly-absent dict keys; the `get*` accessors below are the code's
`o.get(key, default)` reads.  `score` and `net_profit` are integers (the
prompt requests integer scores; nothing in the claims depends on non-integer
amounts). -/

structure ScoredOpp where
  noticeId : String
  score : Option Int
  requires_past_performance : Option Bool
  category : Option String
  net_profit : Option Int
deriving DecidableEq

/-- `o.get("score", 0)`. -/
def getScore (o : ScoredOpp) : Int := o.score.getD 0

/-- `o.get("requires_past_performance", True)`. -/
def getRPP (o : ScoredOpp) : Bool := o.requires_past_performance.getD true

/-- `o.get("category", default_cat)`. -/
def getCat (o : ScoredOpp) (default_cat : String) : String := o.category.getD default_cat

/-- `o.get("estimated_profit", {}).get("net_profit", 0)`. -/
def getNet (o : ScoredOpp) : Int := o.net_profit.getD 0

def MIN_SCORE_NO_PP : Int := 5
def MIN_SCORE_NEEDS_PP : Int := 6
def MAX_NEEDS_PP_SHOWN : Nat := 5

/-! ### Python `sorted(..., key=lambda x: x.get("score", 0), reverse=True)`

Python's `sorted` is a *stable* sort, and with `reverse=True` it is stable for
the descending order: the output is the unique permutation of the input that
is non-increasing on the key and preserves the relative order of elements with
equal keys.  `pySortDesc` computes exactly that permutation (insertion sort
that inserts each element before the first element whose key is `≤` its own);
the theorems `pySortDesc_perm`, `pySortDesc_pairwise` and
`pySortDesc_filter_key` establish the three characterising properties. -/

def insertByDesc (key : α → Int) (a : α) : List α → List α
  | [] => [a]
  | b :: t => if key b ≤ key a then a :: b :: t else b :: insertByDesc key a t

def pySortDesc (key : α → Int) : List α → List α
  | [] => []
  | a :: t => insertByDesc key a (pySortDesc key t)

/-! ### Bucket filters and the two rendering pipelines

`_html_part` (lines 174–197) and `_build_plain_email` (lines 374–407) each
compute, for one business track, the qualified ("no past performance") and
monitor ("needs past performance") buckets with literally the same filter and
sort expressions; we keep one definition per code site. -/

/-- The qualified filter: `not o.get("requires_past_performance", True) and
o.get("score", 0) >= MIN_SCORE_NO_PP`. -/
def no_pp_filter (opps : List ScoredOpp) : List ScoredOpp :=
  opps.filter fun o => !getRPP o && decide (MIN_SCORE_NO_PP ≤ getScore o)

/-- The monitor filter: `o.get("requires_past_performance", True) and
o.get("score", 0) >= MIN_SCORE_NEEDS_PP`. -/
def needs_pp_filter (opps : List ScoredOpp) : List ScoredOpp :=
  opps.filter fun o => getRPP o && decide (MIN_SCORE_NEEDS_PP ≤ getScore o)

/-- `no_pp` in `_html_part`. -/
def html_part_no_pp (opps : List ScoredOpp) : List ScoredOpp :=
  pySortDesc getScore (no_pp_filter opps)

/-- `needs_pp` in `_html_part`. -/
def html_part_needs_pp (opps : List ScoredOpp) : List ScoredOpp :=
  pySortDesc getScore (needs_pp_filter opps)

/-- `dme_no_pp` / `con_no_pp` in `_build_plain_email`. -/
def plain_no_pp (opps : List ScoredOpp) : List ScoredOpp :=
  pySortDesc getScore (no_pp_filter opps)

/-- `dme_pp` / `con_pp` in `_build_plain_email`. -/
def plain_needs_pp (opps : List ScoredOpp) : List ScoredOpp :=
  pySortDesc getScore (needs_pp_filter opps)

/-! ### Category grouping in `_html_no_pp_section` -/

def CATEGORY_ORDER : List String := [
  "Wheelchairs - Power",
  "Hospital Beds",
  "Wheelchairs - Manual",
  "Mobility Scooters",
  "Patient Lifts",
  "Walkers and Mobility Aids",
  "Bathroom Safety",
  "Mixed DME",
  "Other Medical Equipment"]

def CONSULTING_CATEGORY_ORDER : List String := [
  "Process Improvement & Operational Excellence",
  "Agile Transformation & Project Management",
  "Automation & Digital Transformation",
  "Training & Organizational Development",
  "Management Consulting",
  "Other Consulting"]

/-- The list stored by the `defaultdict(list)` under key `c`: appending while
iterating the section's input keeps exactly the items whose category reads as
`c`, in input order. -/
def by_cat (opps : List ScoredOpp) (dc c : String) : List ScoredOpp :=
  opps.filter fun o => getCat o dc == c

/-- The keys of the `defaultdict` in insertion order (the order Python's
`for c in by_cat` iterates them): first-occurrence order of the category
reads.  This is the fold the grouping loop performs on the key sequence. -/
def firstSeen (l : List String) : List String :=
  l.foldl (fun acc c => if c ∈ acc then acc else acc ++ [c]) []

/-- Key sequence of the grouping loop: the category read of each item. -/
def catSeq (opps : List ScoredOpp) (dc : String) : List String :=
  opps.map fun o => getCat o dc

/-- Insertion-order keys of `by_cat`. -/
def catKeys (opps : List ScoredOpp) (dc : String) : List String :=
  firstSeen (catSeq opps dc)

/-- `ordered_cats` in `_html_no_pp_section`: categories of the configured
order that are present, followed by the present-but-unlisted categories in
dict (first-seen) order. -/
def ordered_cats (opps : List ScoredOpp) (cat_order : List String) (dc : String) :
    List String :=
  (cat_order.filter fun c => c ∈ catKeys opps dc) ++
    ((catKeys opps dc).filter fun c => c ∉ cat_order)

/-- The sequence of opportunity cards `_html_no_pp_section` renders, in render
order: for each category in `ordered_cats`, its group re-sorted by score
descending. -/
def html_no_pp_seq (opps : List ScoredOpp) (cat_order : List String) (dc : String) :
    List ScoredOpp :=
  (ordered_cats opps cat_order dc).flatMap fun c =>
    pySortDesc getScore (by_cat opps dc c)

/-- The category group displayed for category `c` inside the HTML qualified
section of one track (`cat_opps` in `_html_no_pp_section`). -/
def html_cat_group (opps : List ScoredOpp) (dc c : String) : List ScoredOpp :=
  pySortDesc getScore (by_cat (html_part_no_pp opps) dc c)

/-- Full HTML qualified-section sequence for one track. -/
def html_qualified_seq (opps : List ScoredOpp) (cat_order : List String) (dc : String) :
    List ScoredOpp :=
  html_no_pp_seq (html_part_no_pp opps) cat_order dc

/-- `net_potential` in `_html_no_pp_section`, and `net` in
`_plain_no_pp_section`: sum of the net-profit reads over the section input. -/
def net_potential (opps : List ScoredOpp) : Int := (opps.map getNet).sum

/-! ### The monitor ("needs past performance") sections -/

/-- `shown = opportunities[:MAX_NEEDS_PP_SHOWN]` in `_html_needs_pp_section`. -/
def html_needs_pp_shown (opps : List ScoredOpp) : List ScoredOpp :=
  opps.take MAX_NEEDS_PP_SHOWN

/-- The "...and N more" count of `_html_needs_pp_section`: emitted only when
`len(opportunities) > MAX_NEEDS_PP_SHOWN`, with value
`len(opportunities) - MAX_NEEDS_PP_SHOWN` (Python integer subtraction). -/
def html_needs_pp_more (opps : List ScoredOpp) : Option Int :=
  if MAX_NEEDS_PP_SHOWN < opps.length then
    some ((opps.length : Int) - (MAX_NEEDS_PP_SHOWN : Int))
  else none

/-- `opportunities[:MAX_NEEDS_PP_SHOWN]` in `_plain_needs_pp_section`. -/
def plain_needs_pp_shown (opps : List ScoredOpp) : List ScoredOpp :=
  opps.take MAX_NEEDS_PP_SHOWN

/-- The "...and N more (see CSV log)" count of `_plain_needs_pp_section`. -/
def plain_needs_pp_more (opps : List ScoredOpp) : Option Int :=
  if MAX_NEEDS_PP_SHOWN < opps.length then
    some ((opps.length : Int) - (MAX_NEEDS_PP_SHOWN : Int))
  else none

/-! ### Dates and `datetime.strptime` (for `_fmt_deadline` / `_days_until`)

`datetime.strptime(s, fmt)` compiles `fmt` into an anchored regex (directives
`%Y %m %d %H %M %S` become the digit patterns below, other characters are
literals; a trailing lone `%` raises `ValueError`), requires the regex to
consume the whole string, and finally builds a `datetime`, which raises
`ValueError` for an out-of-range date (day beyond the month's length, year 0,
leap seconds).  Regex alternation is matched with left-to-right preference and
backtracking, which `matchItems` reproduces.  `(dt.date() - now.date()).days`
is the difference of proleptic-Gregorian ordinals (`date.toordinal`). -/

structure Date where
  year : Nat
  month : Nat
  day : Nat
deriving DecidableEq

def isLeap (y : Nat) : Bool := y % 4 == 0 && (y % 100 != 0 || y % 400 == 0)

def days_in_month (y m : Nat) : Nat :=
  if m == 2 then (if isLeap y then 29 else 28)
  else if m == 4 || m == 6 || m == 9 || m == 11 then 30
  else 31

def days_before_year (y : Nat) : Nat :=
  let p := y - 1
  p * 365 + p / 4 - p / 100 + p / 400

def days_before_month (y m : Nat) : Nat :=
  (List.range (m - 1)).foldl (fun acc i => acc + days_in_month y (i + 1)) 0

/-- CPython `date.toordinal`: day number in the proleptic Gregorian calendar,
with `0001-01-01` as day 1. -/
def toOrdinal (d : Date) : Nat :=
  days_before_year d.year + days_before_month d.year d.month + d.day

/-- One compiled format-string item. -/
inductive FmtItem where
  | lit : Char → FmtItem
  | dirY | dirm | dird | dirH | dirM | dirS
deriving DecidableEq

/-- Compile a format string; `none` models the `ValueError` raised for a
stray trailing `%` (which the truncated formats in `_days_until` produce). -/
def parseFormat : List Char → Option (List FmtItem)
  | [] => some []
  | ['%'] => none
  | '%' :: c :: rest =>
    match c with
    | 'Y' => (parseFormat rest).map (FmtItem.dirY :: ·)
    | 'm' => (parseFormat rest).map (FmtItem.dirm :: ·)
    | 'd' => (parseFormat rest).map (FmtItem.dird :: ·)
    | 'H' => (parseFormat rest).map (FmtItem.dirH :: ·)
    | 'M' => (parseFormat rest).map (FmtItem.dirM :: ·)
    | 'S' => (parseFormat rest).map (FmtItem.dirS :: ·)
    | _ => none
  | c :: rest => (parseFormat rest).map (FmtItem.lit c :: ·)

def digitVal (c : Char) : Nat := c.toNat - '0'.toNat

/-- The regex alternatives of one directive, as (value, remaining text) pairs
in the alternation order of CPython's `_strptime.TimeRE`:
`Y ↦ \d\d\d\d`, `m ↦ 1[0-2]|0[1-9]|[1-9]`, `d ↦ 3[01]|[12]\d|0[1-9]|[1-9]`,
`H ↦ 2[0-3]|[0-1]\d|\d`, `M ↦ [0-5]\d|\d`, `S ↦ 6[0-1]|[0-5]\d|\d`. -/
def altsFor : FmtItem → List Char → List (Nat × List Char)
  | FmtItem.lit _, _ => []
  | FmtItem.dirY, a :: b :: c :: d :: r =>
    if a.isDigit && b.isDigit && c.isDigit && d.isDigit then
      [(digitVal a * 1000 + digitVal b * 100 + digitVal c * 10 + digitVal d, r)]
    else []
  | FmtItem.dirY, _ => []
  | FmtItem.dirm, text =>
    (match text with
     | '1' :: b :: r => if '0' ≤ b && b ≤ '2' then [(10 + digitVal b, r)] else []
     | _ => []) ++
    (match text with
     | '0' :: b :: r => if '1' ≤ b && b ≤ '9' then [(digitVal b, r)] else []
     | _ => []) ++
    (match text with
     | a :: r => if '1' ≤ a && a ≤ '9' then [(digitVal a, r)] else []
     | _ => [])
  | FmtItem.dird, text =>
    (match text with
     | '3' :: b :: r => if b == '0' || b == '1' then [(30 + digitVal b, r)] else []
     | _ => []) ++
    (match text with
     | a :: b :: r =>
       if (a == '1' || a == '2') && b.isDigit then [(digitVal a * 10 + digitVal b, r)]
       else []
     | _ => []) ++
    (match text with
     | '0' :: b :: r => if '1' ≤ b && b ≤ '9' then [(digitVal b, r)] else []
     | _ => []) ++
    (match text with
     | a :: r => if '1' ≤ a && a ≤ '9' then [(digitVal a, r)] else []
     | _ => [])
  | FmtItem.dirH, text =>
    (match text with
     | '2' :: b :: r => if '0' ≤ b && b ≤ '3' then [(20 + digitVal b, r)] else []
     | _ => []) ++
    (match text with
     | a :: b :: r =>
       if (a == '0' || a == '1') && b.isDigit then [(digitVal a * 10 + digitVal b, r)]
       else []
     | _ => []) ++
    (match text with
     | a :: r => if a.isDigit then [(digitVal a, r)] else []
     | _ => [])
  | FmtItem.dirM, text =>
    (match text with
     | a :: b :: r =>
       if '0' ≤ a && a ≤ '5' && b.isDigit then [(digitVal a * 10 + digitVal b, r)]
       else []
     | _ => []) ++
    (match text with
     | a :: r => if a.isDigit then [(digitVal a, r)] else []
     | _ => [])
  | FmtItem.dirS, text =>
    (match text with
     | '6' :: b :: r => if b == '0' || b == '1' then [(60 + digitVal b, r)] else []
     | _ => []) ++
    (match text with
     | a :: b :: r =>
       if '0' ≤ a && a ≤ '5' && b.isDigit then [(digitVal a * 10 + digitVal b, r)]
       else []
     | _ => []) ++
    (match text with
     | a :: r => if a.isDigit then [(digitVal a, r)] else []
     | _ => [])

/-- Parsed time fields with `strptime`'s defaults (year 1900, January 1st). -/
structure TimeFields where
  y : Nat := 1900
  mo : Nat := 1
  d : Nat := 1
  h : Nat := 0
  mi : Nat := 0
  s : Nat := 0
deriving DecidableEq

def setField : FmtItem → Nat → TimeFields → TimeFields
  | FmtItem.dirY, v, f => { f with y := v }
  | FmtItem.dirm, v, f => { f with mo := v }
  | FmtItem.dird, v, f => { f with d := v }
  | FmtItem.dirH, v, f => { f with h := v }
  | FmtItem.dirM, v, f => { f with mi := v }
  | FmtItem.dirS, v, f => { f with s := v }
  | FmtItem.lit _, _, f => f

/-- Anchored match of the compiled format against the text, with regex
backtracking over directive alternatives; the whole text must be consumed
(`strptime`'s "unconverted data remains" check). -/
def matchItems : List FmtItem → TimeFields → List Char → Option TimeFields
  | [], acc, text => if text.isEmpty then some acc else none
  | FmtItem.lit c :: rest, acc, text =>
    match text with
    | c' :: t => if c' == c then matchItems rest acc t else none
    | [] => none
  | item :: rest, acc, text =>
    (altsFor item text).findSome? fun vt =>
      matchItems rest (setField item vt.1 acc) vt.2

/-- The `datetime(...)` constructor validation: year ≥ 1, day within the
month, no leap seconds (hours and minutes are already bounded by the regex). -/
def validFields (f : TimeFields) : Bool :=
  1 ≤ f.y && 1 ≤ f.d && f.d ≤ days_in_month f.y f.mo && f.s ≤ 59

/-- `datetime.strptime(s, fmt).date()`, `none` on any `ValueError`. -/
def strptimeDate (s fmt : String) : Option Date :=
  (parseFormat fmt.toList).bind fun items =>
    (matchItems items {} s.toList).bind fun f =>
      if validFields f then some ⟨f.y, f.mo, f.d⟩ else none

/-- Python string slicing `s[:n]` (by code point). -/
def pyTake (n : Nat) (s : String) : String := String.mk (s.toList.take n)

def DATE_FORMATS : List String := ["%Y-%m-%dT%H:%M:%S", "%Y-%m-%d", "%m/%d/%Y"]

/-- The deadline date found by the `for fmt in (...)` / `try` / `continue`
loop shared by `_fmt_deadline` and `_days_until`: first successful parse of
`deadline_str[:19]` against `fmt[:len(deadline_str[:19])]`. -/
def parsed_deadline (s : String) : Option Date :=
  DATE_FORMATS.findSome? fun fmt =>
    strptimeDate (pyTake 19 s) (pyTake (pyTake 19 s).toList.length fmt)

/-- The integer `days = (dt.date() - datetime.now(timezone.utc).date()).days`
computed by `_days_until` (with the current UTC date as a parameter), as
`none` when the function returns the empty string. -/
def days_until_days (today : Date) (s : String) : Option Int :=
  if s == "" then none
  else
    DATE_FORMATS.findSome? fun fmt =>
      (strptimeDate (pyTake 19 s) (pyTake (pyTake 19 s).toList.length fmt)).map
        fun d => (toOrdinal d : Int) - (toOrdinal today : Int)

/-- The string `_days_until` returns. -/
def days_until (today : Date) (s : String) : String :=
  match days_until_days today s with
  | none => ""
  | some n => "  (" ++ toString n ++ " day" ++ (if n == 1 then "" else "s") ++ ")"

/-- The `days` integer computed by `_fmt_deadline` (`none` on its early
returns and on parse failure, where no day count is shown). -/
def fmt_deadline_days (today : Date) (s : String) : Option Int :=
  if s == "" || s == "N/A" then none
  else
    DATE_FORMATS.findSome? fun fmt =>
      (strptimeDate (pyTake 19 s) (pyTake (pyTake 19 s).toList.length fmt)).map
        fun d => (toOrdinal d : Int) - (toOrdinal today : Int)

/-! ### CSV logging (`log_to_csv` in `src/contract_scout.py`)

The file is modelled as `Option (List (List String))`: `none` when
`CSV_FILE.exists()` is false, otherwise the list of its rows (each row the
list of its cell values).  Opening with mode `"a"` and writing appends rows;
`writer.writeheader()` writes the column names as a row. -/

def CSV_COLUMNS : List String :=
  ["date_found", "title", "solicitation_id", "naics", "agency",
   "estimated_value", "deadline", "score", "reasoning", "sam_url", "status"]

/-- The fields of one merged result that `log_to_csv` reads. -/
structure CsvResult where
  title : String
  solicitationNumber : String
  naicsCode : String
  agency : String
  responseDeadLine : String
  score : String
  reasoning : String
  uiLink : String
deriving DecidableEq

/-- The row `writer.writerow` emits for one result (`date_found` is the
run date rendered by `strftime("%Y-%m-%d")`; `estimated_value` is always
empty and `status` always `"new"`). -/
def csv_row (date_found : String) (r : CsvResult) : List String :=
  [date_found, r.title, r.solicitationNumber, r.naicsCode, r.agency, "",
   r.responseDeadLine, r.score, r.reasoning, r.uiLink, "new"]

/-- `log_to_csv`: header written only when the file did not exist; rows are
appended after the existing contents. -/
def log_to_csv (file : Option (List (List String))) (date_found : String)
    (results : List CsvResult) : List (List String) :=
  match file with
  | none => CSV_COLUMNS :: results.map (csv_row date_found)
  | some rows => rows ++ results.map (csv_row date_found)

/-- The file produced by a sequence of `log_to_csv` runs starting from a
non-existent file (each run carries its date and result list). -/
def run_logs (writes : List (String × List CsvResult)) : Option (List (List String)) :=
  writes.foldl (fun f w => some (log_to_csv f w.1 w.2)) none

/-! ### Properties of the stable descending sort -/

variable {α : Type _}

theorem insertByDesc_perm (key : α → Int) (a : α) (l : List α) :
    List.Perm (insertByDesc key a l) (a :: l) := by
  induction l with
  | nil => simp [insertByDesc]
  | cons b t ih =>
    simp only [insertByDesc]
    split
    · exact List.Perm.refl _
    · exact (List.Perm.cons b ih).trans (List.Perm.swap a b t)

theorem pySortDesc_perm (key : α → Int) (l : List α) :
    List.Perm (pySortDesc key l) l := by
  induction l with
  | nil => simp [pySortDesc]
  | cons a t ih => exact (insertByDesc_perm key a _).trans (ih.cons a)

theorem pairwise_insertByDesc (key : α → Int) {a : α} {l : List α}
    (h : l.Pairwise fun x y => key y ≤ key x) :
    (insertByDesc key a l).Pairwise fun x y => key y ≤ key x := by
  induction l with
  | nil => simp [insertByDesc]
  | cons b t ih =>
    rw [List.pairwise_cons] at h
    obtain ⟨hb, ht⟩ := h
    simp only [insertByDesc]
    split
    · rename_i hba
      refine List.pairwise_cons.mpr ⟨?_, List.pairwise_cons.mpr ⟨hb, ht⟩⟩
      intro x hx
      rcases List.mem_cons.mp hx with rfl | hx
      · exact hba
      · exact le_trans (hb x hx) hba
    · rename_i hba
      refine List.pairwise_cons.mpr ⟨?_, ih ht⟩
      intro x hx
      rcases List.mem_cons.mp ((insertByDesc_perm key a t).mem_iff.mp hx) with rfl | hx'
      · exact le_of_lt (lt_of_not_le hba)
      · exact hb x hx'

theorem pySortDesc_pairwise (key : α → Int) (l : List α) :
    (pySortDesc key l).Pairwise fun x y => key y ≤ key x := by
  induction l with
  | nil => simp [pySortDesc]
  | cons a t ih => exact pairwise_insertByDesc key ih

theorem filter_insertByDesc (key : α → Int) (p : α → Bool) (a : α) (l : List α)
    (h : p a = true → ∀ b, key a < key b → p b = false) :
    (insertByDesc key a l).filter p =
      if p a then a :: l.filter p else l.filter p := by
  induction l with
  | nil =>
    by_cases hpa : p a = true <;> simp [insertByDesc, List.filter_cons, hpa]
  | cons b t ih =>
    simp only [insertByDesc]
    split
    · by_cases hpa : p a = true <;> simp [List.filter_cons, hpa]
    · rename_i hba
      have hab : key a < key b := lt_of_not_le hba
      by_cases hpa : p a = true
      · have hpb : p b = false := h hpa b hab
        simp [List.filter_cons, hpb, ih, hpa]
      · by_cases hpb : p b = true <;>
          simp [List.filter_cons, hpb, ih, hpa]

/-- Stability of the sort: a filter that only keeps elements of one fixed key
value reads the same subsequence off the sorted list as off the input. -/
theorem pySortDesc_filter_key (key : α → Int) (p : α → Bool) (s : Int)
    (hp : ∀ x, p x = true → key x = s) (l : List α) :
    (pySortDesc key l).filter p = l.filter p := by
  induction l with
  | nil => simp [pySortDesc]
  | cons a t ih =>
    have h : p a = true → ∀ b, key a < key b → p b = false := by
      intro hpa b hb
      by_contra hc
      have hpb : p b = true := by
        cases hpbv : p b
        · exact absurd hpbv hc
        · rfl
      have h1 := hp a hpa
      have h2 := hp b hpb
      omega
    rw [pySortDesc, filter_insertByDesc key p a _ h, ih]
    by_cases hpa : p a = true <;> simp [List.filter_cons, hpa]

/-! ### First-occurrence order of dict keys -/

/-- Transparent specification of first-occurrence deduplication: keep each
value at its first occurrence, in stream order. -/
def firstSeenGo (seen : List String) : List String → List String
  | [] => []
  | c :: t => if c ∈ seen then firstSeenGo seen t else c :: firstSeenGo (c :: seen) t

def firstOccurrences (l : List String) : List String := firstSeenGo [] l

theorem firstSeenGo_congr {s1 s2 : List String} (h : ∀ x, x ∈ s1 ↔ x ∈ s2) :
    ∀ l, firstSeenGo s1 l = firstSeenGo s2 l := by
  intro l
  induction l generalizing s1 s2 with
  | nil => rfl
  | cons c t ih =>
    simp only [firstSeenGo]
    by_cases hc : c ∈ s1
    · rw [if_pos hc, if_pos ((h c).mp hc)]
      exact ih h
    · rw [if_neg hc, if_neg (fun hx => hc ((h c).mpr hx))]
      refine congrArg (c :: ·) (ih fun x => ?_)
      simp only [List.mem_cons]
      exact or_congr Iff.rfl (h x)

theorem foldl_firstSeen (l : List String) :
    ∀ acc, l.foldl (fun acc c => if c ∈ acc then acc else acc ++ [c]) acc =
      acc ++ firstSeenGo acc l := by
  induction l with
  | nil => intro acc; simp [firstSeenGo]
  | cons c t ih =>
    intro acc
    simp only [List.foldl_cons, firstSeenGo]
    by_cases hc : c ∈ acc
    · rw [if_pos hc, if_pos hc, ih acc]
    · rw [if_neg hc, if_neg hc, ih (acc ++ [c])]
      rw [show firstSeenGo (acc ++ [c]) t = firstSeenGo (c :: acc) t from
        firstSeenGo_congr (fun x => by simp [or_comm]) t]
      simp

theorem firstSeen_eq (l : List String) : firstSeen l = firstOccurrences l := by
  simpa [firstSeen, firstOccurrences] using foldl_firstSeen l []

theorem mem_firstSeenGo {x : String} :
    ∀ {seen l : List String}, x ∈ firstSeenGo seen l ↔ x ∈ l ∧ x ∉ seen := by
  intro seen l
  induction l generalizing seen with
  | nil => simp [firstSeenGo]
  | cons c t ih =>
    simp only [firstSeenGo]
    by_cases hc : c ∈ seen
    · rw [if_pos hc, ih]
      constructor
      · rintro ⟨h1, h2⟩
        exact ⟨List.mem_cons_of_mem c h1, h2⟩
      · rintro ⟨h1, h2⟩
        rcases List.mem_cons.mp h1 with rfl | h1'
        · exact absurd hc h2
        · exact ⟨h1', h2⟩
    · rw [if_neg hc]
      constructor
      · intro hx
        rcases List.mem_cons.mp hx with rfl | hx'
        · exact ⟨List.mem_cons_self x t, hc⟩
        · obtain ⟨h1, h2⟩ := ih.mp hx'
          exact ⟨List.mem_cons_of_mem c h1, fun hxs => h2 (List.mem_cons_of_mem c hxs)⟩
      · rintro ⟨h1, h2⟩
        rcases List.mem_cons.mp h1 with rfl | h1'
        · exact List.mem_cons_self x _
        · by_cases hxc : x = c
          · exact hxc ▸ List.mem_cons_self c _
          · refine List.mem_cons_of_mem c (ih.mpr ⟨h1', fun hxs => ?_⟩)
            rcases List.mem_cons.mp hxs with h | h
            · exact hxc h
            · exact h2 h

theorem nodup_firstSeenGo : ∀ (seen l : List String), (firstSeenGo seen l).Nodup := by
  intro seen l
  induction l generalizing seen with
  | nil => simp [firstSeenGo]
  | cons c t ih =>
    simp only [firstSeenGo]
    by_cases hc : c ∈ seen
    · rw [if_pos hc]; exact ih seen
    · rw [if_neg hc]
      refine List.nodup_cons.mpr ⟨fun hx => ?_, ih (c :: seen)⟩
      exact (mem_firstSeenGo.mp hx).2 (List.mem_cons_self c seen)

theorem firstSeenGo_sublist : ∀ (seen l : List String), List.Sublist (firstSeenGo seen l) l := by
  intro seen l
  induction l generalizing seen with
  | nil => simp [firstSeenGo]
  | cons c t ih =>
    simp only [firstSeenGo]
    by_cases hc : c ∈ seen
    · rw [if_pos hc]; exact (ih seen).cons c
    · rw [if_neg hc]; exact (ih (c :: seen)).cons₂ c

theorem firstSeen_nodup (l : List String) : (firstSeen l).Nodup := by
  rw [firstSeen_eq]; exact nodup_firstSeenGo [] l

theorem mem_firstSeen {x : String} {l : List String} : x ∈ firstSeen l ↔ x ∈ l := by
  rw [firstSeen_eq, firstOccurrences, mem_firstSeenGo]
  simp

/-! ### The scan result is a subsequence of the table keys -/

theorem scanTable_sublist (table : List (String × List String)) (text : List Char) :
    List.Sublist (scanTable table text) (table.map Prod.fst) := by
  induction table with
  | nil => simp [scanTable]
  | cons p t ih =>
    by_cases h : kwHits p.2 text
    · rw [show scanTable (p :: t) text = p.1 :: scanTable t text from by
        simp [scanTable, List.filterMap_cons, h]]
      exact ih.cons₂ p.1
    · rw [show scanTable (p :: t) text = scanTable t text from by
        simp [scanTable, List.filterMap_cons, h]]
      exact ih.cons p.1

theorem scanDME_sublist (text : List Char) :
    List.Sublist (scanDME text) (CATEGORY_KEYWORDS.map Prod.fst) := by
  rw [scanDME]
  split
  · exact (List.erase_sublist _ _).trans (scanTable_sublist _ _)
  · exact scanTable_sublist _ _

theorem dme_matched_sublist (title description : String) :
    List.Sublist (dme_matched title description) (CATEGORY_KEYWORDS.map Prod.fst) := by
  rw [dme_matched]
  split
  · exact scanDME_sublist _
  · exact scanDME_sublist _

theorem consulting_matched_sublist (title description : String) :
    List.Sublist (consulting_matched title description)
      (CONSULTING_CATEGORY_KEYWORDS.map Prod.fst) := by
  rw [consulting_matched]
  split
  · exact scanTable_sublist _ _
  · exact scanTable_sublist _ _

/-- On a duplicate-free key list, the first key that belongs to a given
subsequence of the keys is that subsequence's head. -/
theorem find_mem_head {β : Type _} [DecidableEq β] :
    ∀ {keys l : List β}, List.Sublist l keys → keys.Nodup →
      keys.find? (fun c => decide (c ∈ l)) = l.head? := by
  intro keys
  induction keys with
  | nil =>
    intro l h _
    rw [List.sublist_nil.mp h]
    rfl
  | cons k ks ih =>
    intro l h hn
    obtain ⟨hk, hks⟩ := List.nodup_cons.mp hn
    cases h with
    | cons _ h' =>
      have hkl : k ∉ _ := fun hmem => hk (h'.subset hmem)
      rw [List.find?_cons_of_neg _ (by simpa using hkl)]
      exact ih h' hks
    | cons₂ _ h' =>
      rw [List.find?_cons_of_pos _ (by simp)]
      rfl

/-! ### Soundness of the word-boundary search -/

/-- The character just before the position after reading `a`, when `prev` was
the character just before `a`. -/
def lastO (prev : Option Char) (a : List Char) : Option Char :=
  match a.getLast? with
  | some c => some c
  | none => prev

theorem lastO_cons (prev : Option Char) (c : Char) (a : List Char) :
    lastO prev (c :: a) = lastO (some c) a := by
  cases a with
  | nil => simp [lastO]
  | cons x xs =>
    rw [lastO, lastO, List.getLast?_cons_cons]
    rcases h : (x :: xs).getLast? with _ | d
    · exact absurd (List.getLast?_eq_none_iff.mp h) (by simp)
    · simp

theorem matchesAt_sound {kw : List Char} {prev : Option Char} {t : List Char}
    (h : matchesAt kw prev t = true) :
    ∃ b, t = kw ++ b ∧ bdry prev kw.head? = true ∧ bdry kw.getLast? b.head? = true := by
  simp only [matchesAt, Bool.and_eq_true] at h
  obtain ⟨⟨hpre, h1⟩, h2⟩ := h
  obtain ⟨b, hb⟩ := List.isPrefixOf_iff_prefix.mp hpre
  refine ⟨b, hb.symm, h1, ?_⟩
  rwa [← hb, List.drop_left] at h2

/-- Any successful search exhibits an occurrence of the keyword with a word
boundary on each side. -/
theorem searchB_sound (kw : List Char) :
    ∀ (prev : Option Char) (t : List Char), searchB kw prev t = true →
      ∃ a b, t = a ++ kw ++ b ∧ bdry (lastO prev a) kw.head? = true ∧
        bdry kw.getLast? b.head? = true := by
  intro prev t
  induction t generalizing prev with
  | nil =>
    intro h
    simp only [searchB] at h
    obtain ⟨b, hb, h1, h2⟩ := matchesAt_sound h
    exact ⟨[], b, by simpa using hb, by simpa [lastO] using h1, h2⟩
  | cons c rest ih =>
    intro h
    simp only [searchB, Bool.or_eq_true] at h
    rcases h with h | h
    · obtain ⟨b, hb, h1, h2⟩ := matchesAt_sound h
      exact ⟨[], b, by simpa using hb, by simpa [lastO] using h1, h2⟩
    · obtain ⟨a, b, hab, h1, h2⟩ := ih (some c) h
      exact ⟨c :: a, b, by simp [hab], by rwa [lastO_cons], h2⟩

/-! ### The category groups partition the section input -/

theorem flatMap_congr_mem {β γ : Type _} {f g : β → List γ} :
    ∀ {cats : List β}, (∀ c ∈ cats, f c = g c) → cats.flatMap f = cats.flatMap g := by
  intro cats
  induction cats with
  | nil => intro _; rfl
  | cons c t ih =>
    intro h
    simp only [List.flatMap_cons]
    rw [h c (List.mem_cons_self c t), ih fun x hx => h x (List.mem_cons_of_mem c hx)]

theorem flatMap_perm_congr {β γ : Type _} {f g : β → List γ} :
    ∀ {cats : List β}, (∀ c ∈ cats, List.Perm (f c) (g c)) →
      List.Perm (cats.flatMap f) (cats.flatMap g) := by
  intro cats
  induction cats with
  | nil => intro _; rfl
  | cons c t ih =>
    intro h
    simp only [List.flatMap_cons]
    exact (h c (List.mem_cons_self c t)).append (ih fun x hx => h x (List.mem_cons_of_mem c hx))

/-- Grouping a list by a key along a duplicate-free list of keys covering all
elements, then concatenating the groups, permutes the list. -/
theorem flatMap_filter_perm {β : Type _} [DecidableEq β] (f : α → β) :
    ∀ (cats : List β) (l : List α), cats.Nodup → (∀ o ∈ l, f o ∈ cats) →
      List.Perm (cats.flatMap fun c => l.filter fun o => f o == c) l := by
  intro cats
  induction cats with
  | nil =>
    intro l _ hl
    have hln : l = [] := List.eq_nil_iff_forall_not_mem.mpr fun o ho => by simpa using hl o ho
    simp [hln]
  | cons c cats' ih =>
    intro l hn hl
    obtain ⟨hc, hn'⟩ := List.nodup_cons.mp hn
    simp only [List.flatMap_cons]
    have step : ∀ c' ∈ cats',
        (l.filter fun o => f o == c') =
          (l.filter fun o => !(f o == c)).filter fun o => f o == c' := by
      intro c' hc'
      rw [List.filter_filter]
      refine (List.filter_congr fun o _ => ?_)
      by_cases h1 : f o = c'
      · have h2 : ¬ c' = c := fun e => hc (e ▸ hc')
        simp [h1, h2]
      · simp [h1]
    rw [flatMap_congr_mem step]
    have ihp := ih (l.filter fun o => !(f o == c)) hn' fun o ho => by
      obtain ⟨hol, hoc⟩ := List.mem_filter.mp ho
      rcases List.mem_cons.mp (hl o hol) with he | he
      · simp [he] at hoc
      · exact he
    exact ((List.Perm.refl _).append ihp).trans (List.filter_append_perm _ l)

/-! ### `findSome?` over mapped parses -/

theorem findSome?_map_eq {β γ δ : Type _} (f : β → Option γ) (g : γ → δ) :
    ∀ l : List β, (l.findSome? fun x => (f x).map g) = (l.findSome? f).map g := by
  intro l
  induction l with
  | nil => rfl
  | cons a t ih =>
    simp only [List.findSome?_cons]
    cases f a <;> simp [ih]

/-! ### CSV helper lemmas -/

theorem csv_row_ne_header (d : String) (r : CsvResult) : csv_row d r ≠ CSV_COLUMNS := by
  intro h
  have h10 : (csv_row d r)[10]? = CSV_COLUMNS[10]? := by rw [h]
  rw [show (csv_row d r)[10]? = some "new" from rfl] at h10
  rw [show CSV_COLUMNS[10]? = some "status" from rfl] at h10
  exact absurd (Option.some.inj h10) (by decide)

theorem count_header_rows (d : String) (rs : List CsvResult) :
    (rs.map (csv_row d)).count CSV_COLUMNS = 0 := by
  rw [List.count_eq_zero]
  intro h
  obtain ⟨r, _, hr⟩ := List.mem_map.mp h
  exact csv_row_ne_header d r hr

theorem run_logs_from (rows : List (List String)) (h : rows.count CSV_COLUMNS = 1) :
    ∀ writes : List (String × List CsvResult),
      ∃ file, writes.foldl (fun f w => some (log_to_csv f w.1 w.2)) (some rows) = some file ∧
        file.count CSV_COLUMNS = 1 := by
  intro writes
  induction writes generalizing rows with
  | nil => exact ⟨rows, rfl, h⟩
  | cons w ws ih =>
    refine ih (log_to_csv (some rows) w.1 w.2) ?_
    simp only [log_to_csv, List.count_append, h, count_header_rows]

/-! ## Claim theorems -/

/-- Claim C1: for every title and description, each classifier returns the
vocabulary's mixed/broad catch-all when the matched-set (after tie-break) has
3 or more distinct categories; returns the first category in keyword-table
order present in the matched-set when it has 1 or 2 categories; and returns
the vocabulary default when the matched-set is empty — in particular when both
title and description are empty.  The matched-set is duplicate-free, so its
length counts distinct categories. -/
theorem claim1_category_decision (title description : String) :
    (dme_matched title description).Nodup ∧
    (3 ≤ (dme_matched title description).length →
      detect_category title description = "Mixed DME") ∧
    (dme_matched title description ≠ [] → (dme_matched title description).length < 3 →
      (CATEGORY_KEYWORDS.map Prod.fst).find?
          (fun c => decide (c ∈ dme_matched title description)) =
        some (detect_category title description)) ∧
    (dme_matched title description = [] →
      detect_category title description = "Other Medical Equipment") ∧
    (consulting_matched title description).Nodup ∧
    (3 ≤ (consulting_matched title description).length →
      detect_consulting_category title description = "Management Consulting") ∧
    (consulting_matched title description ≠ [] →
        (consulting_matched title description).length < 3 →
      (CONSULTING_CATEGORY_KEYWORDS.map Prod.fst).find?
          (fun c => decide (c ∈ consulting_matched title description)) =
        some (detect_consulting_category title description)) ∧
    (consulting_matched title description = [] →
      detect_consulting_category title description = "Other Consulting") ∧
    detect_category "" "" = "Other Medical Equipment" ∧
    detect_consulting_category "" "" = "Other Consulting" := by
  refine ⟨(dme_matched_sublist title description).nodup (by decide), ?_, ?_, ?_,
    (consulting_matched_sublist title description).nodup (by decide), ?_, ?_, ?_,
    by decide, by decide⟩
  · intro h
    simp [detect_category, h]
  · intro hne hlen
    rw [find_mem_head (dme_matched_sublist title description) (by decide)]
    cases hm : dme_matched title description with
    | nil => exact absurd hm hne
    | cons c t =>
      rw [hm] at hlen
      have ht : ¬ 2 ≤ t.length := by
        simp at hlen
        omega
      simp [detect_category, hm, Nat.not_le.mpr hlen, ht]
  · intro hm
    simp [detect_category, hm]
  · intro h
    simp [detect_consulting_category, h]
  · intro hne hlen
    rw [find_mem_head (consulting_matched_sublist title description) (by decide)]
    cases hm : consulting_matched title description with
    | nil => exact absurd hm hne
    | cons c t =>
      rw [hm] at hlen
      have ht : ¬ 2 ≤ t.length := by
        simp at hlen
        omega
      simp [detect_consulting_category, hm, Nat.not_le.mpr hlen, ht]
  · intro hm
    simp [detect_consulting_category, hm]

/-- Witness for C1 at a concrete input whose title matches exactly two
categories ("commode" hits Bathroom Safety, "walker" hits Walkers and
Mobility Aids): the category first in table order wins even though the
lower-priority keyword appears first in the text. -/
theorem claim1_category_decision_witness :
    detect_category "commode and walker" "" = "Walkers and Mobility Aids" := by
  have h := (claim1_category_decision "commode and walker" "").2.2.1
    (by decide) (by decide)
  have he : (CATEGORY_KEYWORDS.map Prod.fst).find?
      (fun c => decide (c ∈ dme_matched "commode and walker" "")) =
      some "Walkers and Mobility Aids" := by decide
  exact Option.some.inj (he.symm.trans h)

/-- Claim C2: when the title scan matches at least one category, the
matched-set is exactly the title matches and the description has no effect;
only when the title matches nothing is the concatenation of title and
description scanned.  A title whose raw scan yields exactly one category
classifies to that category regardless of the description. -/
theorem claim2_title_priority (title description : String) :
    (scanDME (lowerL title) ≠ [] →
      dme_matched title description = scanDME (lowerL title)) ∧
    (scanDME (lowerL title) = [] →
      dme_matched title description =
        scanDME (lowerL title ++ (' ' :: lowerL description))) ∧
    (∀ d2 : String, scanDME (lowerL title) ≠ [] →
      detect_category title d2 = detect_category title description) ∧
    (∀ c : String, scanTable CATEGORY_KEYWORDS (lowerL title) = [c] →
      detect_category title description = c) ∧
    (scanConsulting (lowerL title) ≠ [] →
      consulting_matched title description = scanConsulting (lowerL title)) ∧
    (scanConsulting (lowerL title) = [] →
      consulting_matched title description =
        scanConsulting (lowerL title ++ (' ' :: lowerL description))) ∧
    (∀ d2 : String, scanConsulting (lowerL title) ≠ [] →
      detect_consulting_category title d2 = detect_consulting_category title description) ∧
    (∀ c : String, scanTable CONSULTING_CATEGORY_KEYWORDS (lowerL title) = [c] →
      detect_consulting_category title description = c) := by
  refine ⟨?_, ?_, ?_, ?_, ?_, ?_, ?_, ?_⟩
  · intro hne
    simp [dme_matched, hne]
  · intro h
    simp [dme_matched, h]
  · intro d2 hne
    have h1 : dme_matched title d2 = scanDME (lowerL title) := by simp [dme_matched, hne]
    have h2 : dme_matched title description = scanDME (lowerL title) := by
      simp [dme_matched, hne]
    simp only [detect_category, h1, h2]
  · intro c hm
    have hsd : scanDME (lowerL title) = [c] := by
      rw [scanDME, hm]
      rw [if_neg]
      rintro ⟨h1, h2⟩
      have e1 := List.mem_singleton.mp h1
      have e2 := List.mem_singleton.mp h2
      exact absurd (e1.trans e2.symm) (by decide)
    have hne : scanDME (lowerL title) ≠ [] := by simp [hsd]
    have hmm : dme_matched title description = [c] := by simp [dme_matched, hne, hsd]
    simp [detect_category, hmm]
  · intro hne
    simp [consulting_matched, hne]
  · intro h
    simp [consulting_matched, h]
  · intro d2 hne
    have h1 : consulting_matched title d2 = scanConsulting (lowerL title) := by
      simp [consulting_matched, hne]
    have h2 : consulting_matched title description = scanConsulting (lowerL title) := by
      simp [consulting_matched, hne]
    simp only [detect_consulting_category, h1, h2]
  · intro c hm
    have hsd : scanConsulting (lowerL title) = [c] := hm
    have hne : scanConsulting (lowerL title) ≠ [] := by simp [hsd]
    have hmm : consulting_matched title description = [c] := by
      simp [consulting_matched, hne, hsd]
    simp [detect_consulting_category, hmm]

/-- Witness for C2: a title hitting exactly one category keeps its category
even though the description is full of keywords from other categories. -/
theorem claim2_title_priority_witness :
    detect_category "hospital bed maintenance" "power wheelchair and mobility scooter" =
      "Hospital Beds" :=
  (claim2_title_priority "hospital bed maintenance"
    "power wheelchair and mobility scooter").2.2.2.1 "Hospital Beds" (by decide)

/-- Claim C3: the qualified bucket holds exactly the opportunities with the
past-performance flag false and score ≥ 5; the monitor bucket exactly those
with the flag true and score ≥ 6; a missing score reads as 0 and keeps the
opportunity out of both buckets; a missing flag reads as true, so the
opportunity can never be in the qualified bucket. -/
theorem claim3_bucket_membership (opps : List ScoredOpp) (o : ScoredOpp) :
    (o ∈ html_part_no_pp opps ↔
      o ∈ opps ∧ getRPP o = false ∧ MIN_SCORE_NO_PP ≤ getScore o) ∧
    (o ∈ html_part_needs_pp opps ↔
      o ∈ opps ∧ getRPP o = true ∧ MIN_SCORE_NEEDS_PP ≤ getScore o) ∧
    (o.score = none →
      getScore o = 0 ∧ o ∉ html_part_no_pp opps ∧ o ∉ html_part_needs_pp opps) ∧
    (o.requires_past_performance = none →
      getRPP o = true ∧ o ∉ html_part_no_pp opps) := by
  have hq : o ∈ html_part_no_pp opps ↔
      o ∈ opps ∧ getRPP o = false ∧ MIN_SCORE_NO_PP ≤ getScore o := by
    rw [html_part_no_pp, (pySortDesc_perm getScore _).mem_iff, no_pp_filter,
      List.mem_filter]
    simp [Bool.and_eq_true, and_assoc]
  have hm : o ∈ html_part_needs_pp opps ↔
      o ∈ opps ∧ getRPP o = true ∧ MIN_SCORE_NEEDS_PP ≤ getScore o := by
    rw [html_part_needs_pp, (pySortDesc_perm getScore _).mem_iff, needs_pp_filter,
      List.mem_filter]
    simp [Bool.and_eq_true, and_assoc]
  refine ⟨hq, hm, ?_, ?_⟩
  · intro hs
    have h0 : getScore o = 0 := by simp [getScore, hs]
    refine ⟨h0, fun hmem => ?_, fun hmem => ?_⟩
    · have := (hq.mp hmem).2.2
      rw [h0, MIN_SCORE_NO_PP] at this
      omega
    · have := (hm.mp hmem).2.2
      rw [h0, MIN_SCORE_NEEDS_PP] at this
      omega
  · intro hr
    have h1 : getRPP o = true := by simp [getRPP, hr]
    exact ⟨h1, fun hmem => by simpa [h1] using (hq.mp hmem).2.1⟩

/-- Opportunities for the C3 witness: one with a missing score, one with a
missing flag, one qualified, one for monitoring. -/
def exMissingScore : ScoredOpp := ⟨"M1", none, some false, some "Hospital Beds", some 10⟩

def exMissingFlag : ScoredOpp := ⟨"M2", some 9, none, some "Hospital Beds", some 10⟩

def exQualified : ScoredOpp := ⟨"Q", some 7, some false, some "Hospital Beds", some 10⟩

def exMonitor : ScoredOpp := ⟨"N", some 6, some true, some "Hospital Beds", some 10⟩

/-- Witness for C3 at a concrete list: the opportunity with a missing score
lands in neither bucket, and the one with a missing flag is kept out of the
qualified bucket. -/
theorem claim3_bucket_membership_witness :
    (exMissingScore ∉
        html_part_no_pp [exMissingScore, exMissingFlag, exQualified, exMonitor] ∧
      exMissingScore ∉
        html_part_needs_pp [exMissingScore, exMissingFlag, exQualified, exMonitor]) ∧
    exMissingFlag ∉
      html_part_no_pp [exMissingScore, exMissingFlag, exQualified, exMonitor] ∧
    exQualified ∈
      html_part_no_pp [exMissingScore, exMissingFlag, exQualified, exMonitor] :=
  ⟨((claim3_bucket_membership [exMissingScore, exMissingFlag, exQualified, exMonitor]
      exMissingScore).2.2.1 rfl).2,
    ((claim3_bucket_membership [exMissingScore, exMissingFlag, exQualified, exMonitor]
      exMissingFlag).2.2.2 rfl).2,
    (claim3_bucket_membership [exMissingScore, exMissingFlag, exQualified, exMonitor]
      exQualified).1.mpr ⟨by decide, by decide, by decide⟩⟩

/-- Claim C5: each monitor section displays at most `MAX_NEEDS_PP_SHOWN`
opportunities; when the bucket is larger, the "N more" remainder equals
total − max and is strictly positive (so never negative); when it is not,
no remainder is emitted and the whole bucket is shown. -/
theorem claim5_monitor_cap (opps : List ScoredOpp) :
    (html_needs_pp_shown opps).length ≤ MAX_NEEDS_PP_SHOWN ∧
    (plain_needs_pp_shown opps).length ≤ MAX_NEEDS_PP_SHOWN ∧
    (MAX_NEEDS_PP_SHOWN < opps.length →
      html_needs_pp_more opps = some ((opps.length : Int) - (MAX_NEEDS_PP_SHOWN : Int)) ∧
      plain_needs_pp_more opps = some ((opps.length : Int) - (MAX_NEEDS_PP_SHOWN : Int))) ∧
    (opps.length ≤ MAX_NEEDS_PP_SHOWN →
      html_needs_pp_more opps = none ∧ plain_needs_pp_more opps = none ∧
      html_needs_pp_shown opps = opps ∧ plain_needs_pp_shown opps = opps) ∧
    (∀ n : Int, html_needs_pp_more opps = some n → 0 < n) ∧
    (∀ n : Int, plain_needs_pp_more opps = some n → 0 < n) := by
  refine ⟨?_, ?_, ?_, ?_, ?_, ?_⟩
  · simp [html_needs_pp_shown]
  · simp [plain_needs_pp_shown]
  · intro h
    rw [html_needs_pp_more, if_pos h, plain_needs_pp_more, if_pos h]
    exact ⟨rfl, rfl⟩
  · intro h
    have hn : ¬ MAX_NEEDS_PP_SHOWN < opps.length := by omega
    rw [html_needs_pp_more, if_neg hn, plain_needs_pp_more, if_neg hn,
      html_needs_pp_shown, plain_needs_pp_shown, List.take_of_length_le h]
    exact ⟨rfl, rfl, rfl, rfl⟩
  · intro n hn
    rw [html_needs_pp_more] at hn
    by_cases h : MAX_NEEDS_PP_SHOWN < opps.length
    · rw [if_pos h] at hn
      have hv := Option.some.inj hn
      simp only [MAX_NEEDS_PP_SHOWN] at h hv
      omega
    · rw [if_neg h] at hn
      exact absurd hn (by simp)
  · intro n hn
    rw [plain_needs_pp_more] at hn
    by_cases h : MAX_NEEDS_PP_SHOWN < opps.length
    · rw [if_pos h] at hn
      have hv := Option.some.inj hn
      simp only [MAX_NEEDS_PP_SHOWN] at h hv
      omega
    · rw [if_neg h] at hn
      exact absurd hn (by simp)

/-- A monitor bucket of six identical-shape opportunities for the C5 witness. -/
def exSix : List ScoredOpp :=
  [⟨"1", some 9, some true, none, none⟩, ⟨"2", some 9, some true, none, none⟩,
   ⟨"3", some 8, some true, none, none⟩, ⟨"4", some 8, some true, none, none⟩,
   ⟨"5", some 7, some true, none, none⟩, ⟨"6", some 7, some true, none, none⟩]

/-- Witness for C5: with six monitor entries, five are shown and "1 more" is
reported. -/
theorem claim5_monitor_cap_witness :
    html_needs_pp_more exSix = some ((exSix.length : Int) - (MAX_NEEDS_PP_SHOWN : Int)) ∧
    plain_needs_pp_more exSix = some ((exSix.length : Int) - (MAX_NEEDS_PP_SHOWN : Int)) :=
  (claim5_monitor_cap exSix).2.2.1 (by decide)

/-- Claim C6: a category group displayed in a qualified section is ordered by
non-increasing score, and for every score value the group's entries with that
score form exactly the corresponding subsequence of the raw input list, in
input order — Python's sort is stable, so equal scores keep their relative
input order. -/
theorem claim6_group_ordering (opps : List ScoredOpp) (dc c : String) (s : Int) :
    (html_cat_group opps dc c).Pairwise (fun a b => getScore b ≤ getScore a) ∧
    (html_cat_group opps dc c).filter (fun o => getScore o == s) =
      opps.filter fun o =>
        ((getScore o == s) && (getCat o dc == c)) &&
          (!getRPP o && decide (MIN_SCORE_NO_PP ≤ getScore o)) := by
  constructor
  · exact pySortDesc_pairwise getScore _
  · rw [html_cat_group,
      pySortDesc_filter_key getScore _ s (fun x hx => by simpa using hx),
      by_cat, List.filter_filter, html_part_no_pp,
      pySortDesc_filter_key getScore _ s
        (fun x hx => by
          simp at hx
          exact hx.1),
      no_pp_filter, List.filter_filter]

/-- `_fmt_deadline` and `_days_until` compute the same day count: they share
the format loop, and the extra `"N/A"` early return of `_fmt_deadline` covers
an input no format parses anyway. -/
theorem fmt_deadline_days_eq (today : Date) (s : String) :
    fmt_deadline_days today s = days_until_days today s := by
  rw [fmt_deadline_days, days_until_days]
  by_cases h1 : (s == "") = true
  · rw [if_pos (by simp [h1]), if_pos h1]
  · by_cases h2 : (s == "N/A") = true
    · rw [if_pos (by simp [h2]), if_neg h1]
      have hs : s = "N/A" := by simpa using h2
      subst hs
      rw [findSome?_map_eq
        (fun fmt => strptimeDate (pyTake 19 "N/A") (pyTake (pyTake 19 "N/A").toList.length fmt))
        (fun d => (toOrdinal d : Int) - (toOrdinal today : Int)) DATE_FORMATS]
      rw [show (DATE_FORMATS.findSome? fun fmt =>
          strptimeDate (pyTake 19 "N/A") (pyTake (pyTake 19 "N/A").toList.length fmt)) =
          none from by decide]
      rfl
    · rw [if_neg (by simp [h1, h2]), if_neg h1]

/-- The qualified HTML section sequence is a permutation of the flat
score-sorted qualified list the plain rendering walks. -/
theorem html_qualified_perm (opps : List ScoredOpp) (cat_order : List String)
    (dc : String) (hn : cat_order.Nodup) :
    List.Perm (html_qualified_seq opps cat_order dc) (plain_no_pp opps) := by
  rw [html_qualified_seq, html_no_pp_seq]
  have h1 : List.Perm
      ((ordered_cats (html_part_no_pp opps) cat_order dc).flatMap fun c =>
        pySortDesc getScore (by_cat (html_part_no_pp opps) dc c))
      ((ordered_cats (html_part_no_pp opps) cat_order dc).flatMap fun c =>
        by_cat (html_part_no_pp opps) dc c) :=
    flatMap_perm_congr fun c _ => pySortDesc_perm getScore _
  have hkeys : ∀ o ∈ html_part_no_pp opps,
      getCat o dc ∈ catKeys (html_part_no_pp opps) dc := by
    intro o ho
    rw [catKeys, mem_firstSeen, catSeq]
    exact List.mem_map.mpr ⟨o, ho, rfl⟩
  have hnodup : (ordered_cats (html_part_no_pp opps) cat_order dc).Nodup := by
    rw [ordered_cats]
    refine List.nodup_append.mpr ⟨hn.filter _, (firstSeen_nodup _).filter _, ?_⟩
    intro a ha hb
    have h1a := (List.mem_filter.mp ha).1
    have h2a := (List.mem_filter.mp hb).2
    simp at h2a
    exact h2a h1a
  have hcover : ∀ o ∈ html_part_no_pp opps,
      getCat o dc ∈ ordered_cats (html_part_no_pp opps) cat_order dc := by
    intro o ho
    rw [ordered_cats, List.mem_append]
    by_cases hco : getCat o dc ∈ cat_order
    · exact Or.inl (List.mem_filter.mpr ⟨hco, by simpa using hkeys o ho⟩)
    · exact Or.inr (List.mem_filter.mpr ⟨hkeys o ho, by simpa using hco⟩)
  have h2 : List.Perm
      ((ordered_cats (html_part_no_pp opps) cat_order dc).flatMap fun c =>
        by_cat (html_part_no_pp opps) dc c)
      (html_part_no_pp opps) :=
    flatMap_filter_perm (fun o => getCat o dc) _ _ hnodup hcover
  exact h1.trans h2

/-- Two qualified DME opportunities in different categories for the C4
counterexample: the HTML grouping puts the "Wheelchairs - Power" group first
per `CATEGORY_ORDER`, while the plain rendering walks the score order. -/
def exCardHighBed : ScoredOpp :=
  ⟨"A", some 9, some false, some "Hospital Beds", some 1000⟩

def exCardLowChair : ScoredOpp :=
  ⟨"B", some 5, some false, some "Wheelchairs - Power", some 2000⟩

/-- Counterexample to C4 as stated: the HTML and plain renderings of the same
qualified bucket present the same two opportunities in different orders. -/
theorem claim4_counterexample :
    html_qualified_seq [exCardHighBed, exCardLowChair] CATEGORY_ORDER
        "Other Medical Equipment" ≠
      plain_no_pp [exCardHighBed, exCardLowChair] := by decide

/-- Claim C4 (amended): the two renderings present the same opportunities with
the same computed fields — the monitor buckets, their truncations and
remainder counts agree exactly, the qualified net-potential subtotals agree,
and the deadline day-counts of `_fmt_deadline` and `_days_until` agree — and
each qualified section presents the same opportunities up to order: the HTML
section groups them by category (a permutation of the score order), while the
plain section lists the score-sorted bucket flat, so the two qualified
sequences are permutations of each other but not always equal. -/
theorem claim4_renderings_agree (dme consulting : List ScoredOpp) (today : Date)
    (s : String) :
    List.Perm (html_qualified_seq dme CATEGORY_ORDER "Other Medical Equipment")
      (plain_no_pp dme) ∧
    List.Perm (html_qualified_seq consulting CONSULTING_CATEGORY_ORDER "Other Consulting")
      (plain_no_pp consulting) ∧
    html_part_no_pp dme = plain_no_pp dme ∧
    html_part_needs_pp dme = plain_needs_pp dme ∧
    html_needs_pp_shown (html_part_needs_pp dme) =
      plain_needs_pp_shown (plain_needs_pp dme) ∧
    html_needs_pp_more (html_part_needs_pp dme) =
      plain_needs_pp_more (plain_needs_pp dme) ∧
    net_potential (html_part_no_pp dme) = net_potential (plain_no_pp dme) ∧
    fmt_deadline_days today s = days_until_days today s :=
  ⟨html_qualified_perm dme CATEGORY_ORDER "Other Medical Equipment" (by decide),
    html_qualified_perm consulting CONSULTING_CATEGORY_ORDER "Other Consulting" (by decide),
    rfl, rfl, rfl, rfl, rfl, fmt_deadline_days_eq today s⟩

/-- Claim C7: the keyword scan only matches whole words: every successful
match exhibits an occurrence of the keyword with a word boundary on each side,
so a keyword buried as a proper substring of a longer word never produces the
match.  Concretely, `"canemark"` does not match the keyword `"cane"` (the
title classifies to the default), while the whitespace-padded table entry
`" cane"` is stripped before matching, so the title `"cane"` does match. -/
theorem claim7_whole_word :
    (∀ kw text : List Char, wordMatch kw text = true →
      ∃ a b, text = a ++ kw ++ b ∧ bdry (lastO none a) kw.head? = true ∧
        bdry kw.getLast? b.head? = true) ∧
    wordMatch (pyStrip " cane".toList) "canemark".toList = false ∧
    detect_category "canemark" "" = "Other Medical Equipment" ∧
    scanDME (lowerL "canemark") = [] ∧
    pyStrip " cane".toList = "cane".toList ∧
    detect_category "cane" "" = "Walkers and Mobility Aids" := by
  refine ⟨?_, by decide, by decide, by decide, by decide, by decide⟩
  intro kw text h
  exact searchB_sound kw none text h

/-- Witness for C7: the match of `"cane"` in `"a cane"` produces a
boundary-delimited occurrence. -/
theorem claim7_whole_word_witness :
    ∃ a b, ("a cane".toList : List Char) = a ++ "cane".toList ++ b ∧
      bdry (lastO none a) ("cane".toList).head? = true ∧
      bdry ("cane".toList).getLast? b.head? = true :=
  claim7_whole_word.1 "cane".toList "a cane".toList (by decide)

/-- Claim C8: `log_to_csv` only appends: on an existing file with K rows it
produces exactly K + M rows whose first K are the prior rows unchanged and in
order, writing no new header; on a fresh file it writes the header once ahead
of the M rows; and any file produced by a sequence of runs carries the header
exactly once. -/
theorem claim8_csv_append (rows : List (List String)) (d : String)
    (results : List CsvResult) :
    (log_to_csv (some rows) d results).length = rows.length + results.length ∧
    (log_to_csv (some rows) d results).take rows.length = rows ∧
    (log_to_csv (some rows) d results).count CSV_COLUMNS = rows.count CSV_COLUMNS ∧
    (log_to_csv none d results).length = 1 + results.length ∧
    (log_to_csv none d results).count CSV_COLUMNS = 1 ∧
    (∀ writes : List (String × List CsvResult), writes ≠ [] →
      ∃ file, run_logs writes = some file ∧ file.count CSV_COLUMNS = 1) := by
  refine ⟨?_, ?_, ?_, ?_, ?_, ?_⟩
  · simp [log_to_csv]
  · rw [log_to_csv, List.take_left]
  · rw [log_to_csv, List.count_append, count_header_rows]
    omega
  · simp [log_to_csv]
    omega
  · rw [log_to_csv, List.count_cons_self, count_header_rows]
  · intro writes hne
    cases writes with
    | nil => exact absurd rfl hne
    | cons w ws =>
      rw [run_logs, List.foldl_cons]
      refine run_logs_from (log_to_csv none w.1 w.2) ?_ ws
      rw [log_to_csv, List.count_cons_self, count_header_rows]

/-- One merged result row for the C8 witness. -/
def exResult : CsvResult :=
  ⟨"Wheelchair RFQ", "SOL-1", "423450", "VA", "2026-03-25", "8", "good fit", "http x"⟩

/-- Witness for C8: a fresh file followed by one appending run holds the
header exactly once. -/
theorem claim8_csv_append_witness :
    ∃ file,
      run_logs [("2026-01-02", [exResult]), ("2026-01-03", [exResult, exResult])] =
        some file ∧ file.count CSV_COLUMNS = 1 :=
  (claim8_csv_append [CSV_COLUMNS] "2026-01-02" [exResult]).2.2.2.2.2
    [("2026-01-02", [exResult]), ("2026-01-03", [exResult, exResult])] (by decide)

/-- Claim C9: the days-until-deadline computation tries the ordered format
list on the truncated deadline; on the first success the result is the
integer difference of date ordinals (deadline minus the current UTC date),
which may be negative and is not suppressed; on failure it degrades to the
empty value.  Concretely `"2026-03-25"` seen from 2026-03-01 gives 24 days. -/
theorem claim9_days_until (today : Date) (s : String) :
    days_until_days today s =
      (if s == "" then none else parsed_deadline s).map
        (fun d => (toOrdinal d : Int) - (toOrdinal today : Int)) ∧
    days_until_days ⟨2026, 3, 1⟩ "2026-03-25" = some 24 ∧
    days_until ⟨2026, 3, 1⟩ "2026-03-25" = "  (24 days)" ∧
    days_until_days ⟨2026, 3, 1⟩ "2026-02-20" = some (-9) ∧
    days_until ⟨2026, 3, 1⟩ "2026-02-20" = "  (-9 days)" ∧
    days_until_days ⟨2026, 3, 1⟩ "not a date" = none ∧
    days_until ⟨2026, 3, 1⟩ "not a date" = "" ∧
    days_until ⟨2026, 3, 1⟩ "" = "" := by
  refine ⟨?_, by decide, by decide, by decide, by decide, by decide, by decide, by decide⟩
  by_cases h : (s == "") = true
  · rw [days_until_days, if_pos h, if_pos h]
    rfl
  · rw [days_until_days, if_neg h, if_neg h, parsed_deadline,
      findSome?_map_eq
        (fun fmt => strptimeDate (pyTake 19 s) (pyTake (pyTake 19 s).toList.length fmt))
        (fun d => (toOrdinal d : Int) - (toOrdinal today : Int)) DATE_FORMATS]

/-- Claim C10 (implicit): the consulting classifier only emits the five
keyword-table labels or "Other Consulting"; of these, only
"Management Consulting" and "Other Consulting" occur in
`CONSULTING_CATEGORY_ORDER`.  The HTML grouping therefore treats the other
four labels as unlisted: `ordered_cats` is the configured-order categories
present followed by the present-but-unlisted ones in first-seen order, so any
group carrying one of the four labels is rendered after every
"Management Consulting" / "Other Consulting" group and never benefits from the
configured priority order. -/
theorem claim10_consulting_order (title description : String)
    (opps : List ScoredOpp) (c : String) :
    detect_consulting_category title description ∈
      ["Process Improvement", "Agile & Project Management", "Automation & Digital",
       "Training & Development", "Management Consulting", "Other Consulting"] ∧
    (∀ x ∈ ["Process Improvement", "Agile & Project Management",
        "Automation & Digital", "Training & Development"],
      x ∉ CONSULTING_CATEGORY_ORDER) ∧
    "Management Consulting" ∈ CONSULTING_CATEGORY_ORDER ∧
    "Other Consulting" ∈ CONSULTING_CATEGORY_ORDER ∧
    ((catKeys opps "Other Consulting").filter fun x =>
        x ∉ CONSULTING_CATEGORY_ORDER) =
      ((firstOccurrences (catSeq opps "Other Consulting")).filter fun x =>
        x ∉ CONSULTING_CATEGORY_ORDER) ∧
    ordered_cats opps CONSULTING_CATEGORY_ORDER "Other Consulting" =
      (CONSULTING_CATEGORY_ORDER.filter fun x =>
          x ∈ catKeys opps "Other Consulting") ++
        ((catKeys opps "Other Consulting").filter fun x =>
          x ∉ CONSULTING_CATEGORY_ORDER) ∧
    (c ∈ ["Process Improvement", "Agile & Project Management",
        "Automation & Digital", "Training & Development"] →
      c ∉ CONSULTING_CATEGORY_ORDER.filter fun x =>
        x ∈ catKeys opps "Other Consulting") ∧
    ((∀ o ∈ opps, getCat o "Other Consulting" ∈
        ["Process Improvement", "Agile & Project Management", "Automation & Digital",
         "Training & Development", "Management Consulting", "Other Consulting"]) →
      ∀ x ∈ CONSULTING_CATEGORY_ORDER.filter fun x =>
          x ∈ catKeys opps "Other Consulting",
        x = "Management Consulting" ∨ x = "Other Consulting") := by
  have hfour : ∀ x ∈ ["Process Improvement", "Agile & Project Management",
      "Automation & Digital", "Training & Development"],
      x ∉ CONSULTING_CATEGORY_ORDER := by decide
  refine ⟨?_, hfour, by decide, by decide, ?_, rfl, ?_, ?_⟩
  · simp only [detect_consulting_category]
    split
    · decide
    · cases hm : consulting_matched title description with
      | nil => simp only [hm]; decide
      | cons a t =>
        simp only [hm]
        have hsub := consulting_matched_sublist title description
        rw [hm] at hsub
        have ha : a ∈ CONSULTING_CATEGORY_KEYWORDS.map Prod.fst :=
          hsub.subset (List.mem_cons_self a t)
        have hx : ∀ y ∈ CONSULTING_CATEGORY_KEYWORDS.map Prod.fst,
            y ∈ ["Process Improvement", "Agile & Project Management",
              "Automation & Digital", "Training & Development",
              "Management Consulting", "Other Consulting"] := by decide
        exact hx a ha
  · rw [catKeys, firstSeen_eq]
  · intro hc hmem
    exact hfour c hc (List.mem_filter.mp hmem).1
  · intro hall x hx
    obtain ⟨hxo, hxk⟩ := List.mem_filter.mp hx
    have hxk' : x ∈ catKeys opps "Other Consulting" := by simpa using hxk
    rw [catKeys, mem_firstSeen, catSeq] at hxk'
    obtain ⟨o, ho, rfl⟩ := List.mem_map.mp hxk'
    have hsix := hall o ho
    have hdec : ∀ y ∈ ["Process Improvement", "Agile & Project Management",
        "Automation & Digital", "Training & Development",
        "Management Consulting", "Other Consulting"],
        y ∈ CONSULTING_CATEGORY_ORDER →
          y = "Management Consulting" ∨ y = "Other Consulting" := by decide
    exact hdec _ hsix hxo

/-- Consulting bucket for the C10 witness: one listed and one unlisted
category. -/
def exConsulting : List ScoredOpp :=
  [⟨"C1", some 7, some false, some "Management Consulting", some 0⟩,
   ⟨"C2", some 8, some false, some "Agile & Project Management", some 0⟩]

/-- Witness for C10: the classifier label "Agile & Project Management" never
appears in the configured-order prefix of the consulting group ordering. -/
theorem claim10_consulting_order_witness :
    "Agile & Project Management" ∉
      CONSULTING_CATEGORY_ORDER.filter fun x =>
        x ∈ catKeys exConsulting "Other Consulting" :=
  (claim10_consulting_order "" "" exConsulting
    "Agile & Project Management").2.2.2.2.2.2.1 (by decide)

end ContractScout
